import Mathlib

/-!
Shallow embedding of `src/packages/core/src/CommandManager.ts` from the
tiptap fork under verification.

The `CommandManager` class wraps an external editing library.  We embed the
wrapper's own logic faithfully:

* a ProseMirror `Transaction` is modelled by the data the wrapper inspects:
  an identity tag and the truthiness of the `preventDispatch` meta entry
  (`tr.getMeta('preventDispatch')`);
* an `EditorState` is modelled by the fresh transaction its `tr` getter
  yields;
* a raw command is a function from its arguments and the `CommandProps`
  built by `buildProps` to an outcome: either it returns a boolean or it
  throws (`CmdOutcome.throws`); the embedding of each call site is a total
  function, so "the call does not throw" is expressed by the call site
  producing an ordinary value rather than propagating `CmdOutcome.throws`;
* the side effect `view.dispatch(tr)` is modelled by returning the list of
  transactions forwarded to the view during the call;
* of `CommandProps` we embed the fields the wrapper's control flow reads or
  hands to nested evaluators: `tr`, the `dispatch` prop
  (`shouldDispatch ? () => undefined : undefined`, an `Option Unit`), and
  the `shouldDispatch` value captured by the `chain` closure
  (`chain: () => this.createChain(tr, shouldDispatch)`).  The `editor`,
  `view`, chainable `state` and `commands` fields are opaque references to
  the wrapped library and carry no wrapper logic of their own.
-/

/-- Arguments of a command (`...args` in the source) are opaque to the
wrapper; we represent an argument list by a list of naturals. -/
abbrev Args := List Nat

/-- A ProseMirror transaction, reduced to what the wrapper reads: an
identity (so distinct transactions can be told apart in the dispatch log)
and whether `getMeta('preventDispatch')` is truthy. -/
structure Transaction where
  id : Nat
  preventDispatch : Bool
deriving DecidableEq, Repr

/-- An editor state, reduced to the fresh transaction its `tr` getter
produces. -/
structure EditorState where
  tr : Transaction
deriving DecidableEq, Repr

/-- Outcome of executing a raw command body `command(...args)(props)`:
either it returns a boolean, or its execution throws. -/
inductive CmdOutcome where
  | ok (b : Bool)
  | throws
deriving DecidableEq, Repr

/-- The fields of `CommandProps` (built by `buildProps`) that the wrapper's
control flow depends on: the shared transaction `tr`, the `dispatch` prop
(`some ()` for the no-op `() => undefined`, `none` for `undefined`), and
the `shouldDispatch` flag captured by the `chain` closure
(`chain: () => this.createChain(tr, shouldDispatch)`). -/
structure CmdProps where
  tr : Transaction
  dispatch : Option Unit
  chainShouldDispatch : Bool
deriving DecidableEq, Repr

/-- A raw command: from arguments and props to an outcome. -/
abbrev Cmd := Args → CmdProps → CmdOutcome

/-- The host editor, reduced to what the wrapper reads from it: its state
and `extensionManager.commands`, the raw-command table (a record of
functions, embedded as an association list keyed by command name). -/
structure Editor where
  state : EditorState
  extensionCommands : List (String × Cmd)

/-- `const alwaysReturnFalse = () => false as const` (source line 10). -/
def alwaysReturnFalse : Args → Bool := fun _ => false

/-- The `CommandManager` instance fields: `editor`, `rawCommands`,
`customState`. -/
structure CommandManager where
  editor : Editor
  rawCommands : List (String × Cmd)
  customState : Option EditorState

/-- The constructor: `rawCommands` is copied from
`editor.extensionManager.commands`, `customState` from the optional
`state` prop. -/
def CommandManager.make (editor : Editor) (state? : Option EditorState) :
    CommandManager :=
  { editor := editor, rawCommands := editor.extensionCommands, customState := state? }

/-- `get hasCustomState(): boolean { return !!this.customState }` — an
`EditorState` object is always truthy. -/
def CommandManager.hasCustomState (cm : CommandManager) : Bool :=
  cm.customState.isSome

/-- `get state(): EditorState { return this.customState || this.editor.state }`. -/
def CommandManager.state (cm : CommandManager) : EditorState :=
  cm.customState.getD cm.editor.state

/-- `Reflect.get(rawCommands, prop)` followed by the `isFunction` check:
the looked-up value is a function exactly when the name is a key of the
raw-command table. -/
def CommandManager.lookupCommand (cm : CommandManager) (name : String) :
    Option Cmd :=
  cm.rawCommands.lookup name

/-- `buildProps(tr, shouldDispatch = true)` (source lines 158–183),
restricted to the fields in `CmdProps`:
`dispatch: shouldDispatch ? () => undefined : undefined` and
`chain: () => this.createChain(tr, shouldDispatch)`. -/
def CommandManager.buildProps (cm : CommandManager) (tr : Transaction)
    (shouldDispatch : Bool := true) : CmdProps :=
  { tr := tr
  , dispatch := if shouldDispatch then some () else none
  , chainShouldDispatch := shouldDispatch }

/-- Outcome of a single-shot command method from the `commands` getter
(source lines 33–54): either the command's execution threw and the
exception propagated out of the method (no dispatch happened), or the
command returned a boolean and the listed transactions were forwarded to
`view.dispatch`. -/
inductive SingleOutcome where
  | threw
  | returned (b : Bool) (dispatched : List Transaction)
deriving Repr

/-- The transactions a single-shot invocation forwarded to the view. -/
def SingleOutcome.dispatched : SingleOutcome → List Transaction
  | .threw => []
  | .returned _ d => d

/-- One method of the `commands` getter (source lines 39–53): for a
registered name, run `command(...args)(props)` with
`props = this.buildProps(tr)`; if it returns, dispatch `tr` unless
`tr.getMeta('preventDispatch')` or `this.hasCustomState`, and return the
callback value.  There is no `try`/`catch` here: a throw propagates and
skips the dispatch.  `none` for a name absent from the table (the built
object has no such method). -/
def CommandManager.singleCommand (cm : CommandManager) (name : String)
    (args : Args) : Option SingleOutcome :=
  (cm.lookupCommand name).map fun command =>
    let tr := cm.state.tr
    let props := cm.buildProps tr
    match command args props with
    | .throws => .threw
    | .ok b =>
        .returned b
          (if !tr.preventDispatch && !cm.hasCustomState then [tr] else [])

/-- An element of the chain's `callbacks` array (source line 67):
`(boolean | 'commandError' | 'commandNotFound')[]`. -/
inductive Callback where
  | result (b : Bool)
  | commandError
  | commandNotFound
deriving DecidableEq, Repr

/-- The single callback value pushed by one `chainedCommand` invocation
(source lines 94–112): `'commandNotFound'` when the accessed name is not a
function of the raw-command table; otherwise the boolean returned by
`command(...args)(this.buildProps(tr, shouldDispatch))`, or
`'commandError'` when that execution throws. -/
def CommandManager.stepCallback (cm : CommandManager) (tr : Transaction)
    (shouldDispatch : Bool) (name : String) (args : Args) : Callback :=
  let props := cm.buildProps tr shouldDispatch
  match cm.lookupCommand name with
  | none => .commandNotFound
  | some command =>
      match command args props with
      | .ok b => .result b
      | .throws => .commandError

/-- One `chainedCommand` invocation as a transformation of the chain's
`callbacks` array: exactly one callback is appended. -/
def CommandManager.chainedCommandStep (cm : CommandManager) (tr : Transaction)
    (shouldDispatch : Bool) (callbacks : List Callback) (name : String)
    (args : Args) : List Callback :=
  callbacks ++ [cm.stepCallback tr shouldDispatch name args]

/-- The `callbacks` array after invoking, in order, each `(name, args)` of
`invocations` on a chain running over `tr` with the given
`shouldDispatch`. -/
def CommandManager.chainCallbacks (cm : CommandManager) (tr : Transaction)
    (shouldDispatch : Bool) (invocations : List (String × Args)) :
    List Callback :=
  invocations.foldl
    (fun cbs p => cm.chainedCommandStep tr shouldDispatch cbs p.1 p.2) []

/-- Result of `run()`: the transactions forwarded to `view.dispatch` and
the returned boolean. -/
structure RunResult where
  dispatched : List Transaction
  result : Bool
deriving DecidableEq, Repr

/-- `run` (source lines 71–84): dispatch `tr` when the chain had no start
transaction, dispatching was enabled, `tr` carries no truthy
`preventDispatch` meta, the manager has no custom state, and `callbacks`
contains neither `'commandError'` nor `'commandNotFound'`; return whether
every callback is strictly `=== true`. -/
def CommandManager.chainRun (cm : CommandManager) (hasStartTransaction : Bool)
    (shouldDispatch : Bool) (tr : Transaction) (callbacks : List Callback) :
    RunResult :=
  let doDispatch :=
    !hasStartTransaction && shouldDispatch && !tr.preventDispatch
      && !cm.hasCustomState
      && !(decide (Callback.commandError ∈ callbacks))
      && !(decide (Callback.commandNotFound ∈ callbacks))
  { dispatched := if doDispatch then [tr] else []
  , result := callbacks.all fun c => decide (c = Callback.result true) }

/-- `createChain(startTr?, shouldDispatch = true)` followed by the given
invocations and a final `run()` (source lines 64–119):
`hasStartTransaction = !!startTr` (a `Transaction` object is truthy) and
`tr = startTr || state.tr`. -/
def CommandManager.runChain (cm : CommandManager) (startTr : Option Transaction)
    (shouldDispatch : Bool) (invocations : List (String × Args)) : RunResult :=
  let tr := startTr.getD cm.state.tr
  cm.chainRun startTr.isSome shouldDispatch tr
    (cm.chainCallbacks tr shouldDispatch invocations)

/-- The props handed to a command invoked through the `can` evaluator
(source lines 121–147): `props = this.buildProps(tr, false)` spread with
`dispatch: undefined`, for `tr = startTr || state.tr`. -/
def CommandManager.canProps (cm : CommandManager) (startTr : Option Transaction) :
    CmdProps :=
  let tr := startTr.getD cm.state.tr
  { cm.buildProps tr false with dispatch := none }

/-- What the `can` proxy's `get` trap yields for a property name. -/
inductive CanGet where
  | chainBuilder (startTr : Transaction) (shouldDispatch : Bool)
  | callable (f : Args → Bool)

/-- The `get` trap of `createCan` (source lines 127–148): `'chain'` yields
`() => this.createChain(tr, dispatch)` with `dispatch = false`; a name
that is not a function of the table yields `alwaysReturnFalse`; a
registered command yields a function running it under `try`/`catch`,
converting a throw to `false`. -/
def CommandManager.canGet (cm : CommandManager) (startTr : Option Transaction)
    (name : String) : CanGet :=
  let tr := startTr.getD cm.state.tr
  if name = "chain" then
    .chainBuilder tr false
  else
    match cm.lookupCommand name with
    | none => .callable alwaysReturnFalse
    | some command =>
        .callable fun args =>
          match command args (cm.canProps startTr) with
          | .ok b => b
          | .throws => false

/-- Invoking one command (a non-`'chain'` property) through the `can`
evaluator. -/
def CommandManager.canCommand (cm : CommandManager) (startTr : Option Transaction)
    (name : String) (args : Args) : Bool :=
  match cm.canGet startTr name with
  | .chainBuilder _ _ => false
  | .callable f => f args

/-- `can().chain()` … `.run()`: the chain factory returned for `'chain'`
calls `createChain(tr, false)` with `tr = startTr || state.tr`, so the
nested chain always has a start transaction and dispatching disabled. -/
def CommandManager.canChainRun (cm : CommandManager) (startTr : Option Transaction)
    (invocations : List (String × Args)) : RunResult :=
  let tr := startTr.getD cm.state.tr
  cm.runChain (some tr) false invocations

/-- The props seen by a command at nesting depth `n` below a chain over
`tr` with the given `shouldDispatch`: depth `0` is the chain's own
`buildProps(tr, shouldDispatch)`; each deeper level is the props built by
the chain that `props.chain()` creates
(`createChain(props.tr, shouldDispatch)`). -/
def CommandManager.nestedChainProps (cm : CommandManager) (tr : Transaction)
    (shouldDispatch : Bool) : Nat → CmdProps
  | 0 => cm.buildProps tr shouldDispatch
  | n + 1 =>
      let p := cm.nestedChainProps tr shouldDispatch n
      cm.buildProps p.tr p.chainShouldDispatch

/-! ## Concrete instances used by the witnesses and counterexamples -/

/-- A fresh transaction with no `preventDispatch` meta. -/
def trEx : Transaction := ⟨0, false⟩

/-- A concrete editor state. -/
def stEx : EditorState := ⟨trEx⟩

/-- A command whose execution always throws. -/
def throwCmd : Cmd := fun _ _ => .throws

/-- A command that always returns `true`. -/
def trueCmd : Cmd := fun _ _ => .ok true

/-- A command that always returns `false`. -/
def falseCmd : Cmd := fun _ _ => .ok false

/-- A concrete editor whose extension manager registers a throwing command
and two boolean-returning commands. -/
def editorEx : Editor :=
  ⟨stEx, [("boom", throwCmd), ("yes", trueCmd), ("no", falseCmd)]⟩

/-- A concrete manager over `editorEx` with no custom state. -/
def cmEx : CommandManager := CommandManager.make editorEx none

/-! ## Helper lemmas -/

/-- The chain's `callbacks` array after a sequence of invocations is the
per-invocation callback of each element, in order. -/
theorem chainCallbacks_eq_map (cm : CommandManager) (tr : Transaction)
    (d : Bool) (invs : List (String × Args)) :
    cm.chainCallbacks tr d invs
      = invs.map fun p => cm.stepCallback tr d p.1 p.2 := by
  have h : ∀ (l : List (String × Args)) (cbs : List Callback),
      l.foldl (fun cbs p => cm.chainedCommandStep tr d cbs p.1 p.2) cbs
        = cbs ++ l.map fun p => cm.stepCallback tr d p.1 p.2 := by
    intro l
    induction l with
    | nil => intro cbs; simp
    | cons p rest ih =>
        intro cbs
        rw [List.foldl_cons, ih]
        simp [CommandManager.chainedCommandStep]
  simpa [CommandManager.chainCallbacks] using h invs []

/-- `run()` returns `false` whenever some invocation of the chain produced
a callback other than strict `true`. -/
theorem chainRun_result_false_of_bad (cm : CommandManager)
    (startTr : Option Transaction) (d : Bool) (invs : List (String × Args))
    (name : String) (args : Args) (hmem : (name, args) ∈ invs)
    (hbad : cm.stepCallback (startTr.getD cm.state.tr) d name args
      ≠ Callback.result true) :
    (cm.runChain startTr d invs).result = false := by
  simp only [CommandManager.runChain, CommandManager.chainRun]
  rw [Bool.eq_false_iff]
  intro hall
  rw [List.all_eq_true] at hall
  have hm : cm.stepCallback (startTr.getD cm.state.tr) d name args
      ∈ cm.chainCallbacks (startTr.getD cm.state.tr) d invs := by
    rw [chainCallbacks_eq_map]
    exact List.mem_map.mpr ⟨(name, args), hmem, rfl⟩
  exact hbad (of_decide_eq_true (hall _ hm))

/-- `canProps` coincides with `buildProps(tr, false)`: the spread
`{ ...props, dispatch: undefined }` overrides `dispatch` with the value it
already has when `shouldDispatch` is `false`. -/
theorem canProps_eq_buildProps (cm : CommandManager) (startTr : Option Transaction) :
    cm.canProps startTr = cm.buildProps (startTr.getD cm.state.tr) false := rfl

/-- An option is not `isSome` exactly when it is `none`. -/
theorem isSome_eq_false_iff {α : Type} (o : Option α) :
    (o.isSome = false) ↔ o = none := by
  cases o <;> simp

/-! ## Claim theorems -/

/-- C3: `run()` forwards the accumulated transaction to the host view's
dispatch exactly when the chain was created without a start transaction,
dispatching was enabled at creation, the transaction carries no
`preventDispatch` meta, the manager holds no custom state, and the
per-call outcome list contains neither `'commandError'` nor
`'commandNotFound'`; since a recorded `false` outcome is none of these, it
alone does not prevent forwarding. -/
theorem chain_run_dispatch_iff (cm : CommandManager)
    (startTr : Option Transaction) (shouldDispatch : Bool)
    (invs : List (String × Args)) :
    (cm.runChain startTr shouldDispatch invs).dispatched
        = [startTr.getD cm.state.tr]
      ↔ startTr = none ∧ shouldDispatch = true
        ∧ (startTr.getD cm.state.tr).preventDispatch = false
        ∧ cm.customState = none
        ∧ Callback.commandError
            ∉ cm.chainCallbacks (startTr.getD cm.state.tr) shouldDispatch invs
        ∧ Callback.commandNotFound
            ∉ cm.chainCallbacks (startTr.getD cm.state.tr) shouldDispatch invs := by
  simp only [CommandManager.runChain, CommandManager.chainRun,
    CommandManager.hasCustomState]
  have hsplit : ∀ (c : Bool) (t : Transaction),
      ((if c then [t] else []) = [t]) ↔ c = true := by
    intro c t; cases c <;> simp
  rw [hsplit]
  simp [Bool.and_eq_true, Bool.not_eq_true', isSome_eq_false_iff,
    decide_eq_false_iff_not, and_assoc]

/-- C4: `run()` returns `true` exactly when every recorded per-call
outcome is strictly `true`; consequently a chain containing an invocation
whose command was not found, threw, or returned `false` yields `false`
from `run()` (the embedding of `run` is a total function, so no exception
escapes it). -/
theorem chain_run_result_characterization (cm : CommandManager)
    (startTr : Option Transaction) (shouldDispatch : Bool)
    (invs : List (String × Args)) :
    ((cm.runChain startTr shouldDispatch invs).result = true
      ↔ ∀ c ∈ cm.chainCallbacks (startTr.getD cm.state.tr) shouldDispatch invs,
          c = Callback.result true)
    ∧ (∀ name args, (name, args) ∈ invs →
        cm.lookupCommand name = none →
        (cm.runChain startTr shouldDispatch invs).result = false)
    ∧ (∀ name args f, (name, args) ∈ invs →
        cm.lookupCommand name = some f →
        f args (cm.buildProps (startTr.getD cm.state.tr) shouldDispatch)
          = CmdOutcome.throws →
        (cm.runChain startTr shouldDispatch invs).result = false)
    ∧ (∀ name args f, (name, args) ∈ invs →
        cm.lookupCommand name = some f →
        f args (cm.buildProps (startTr.getD cm.state.tr) shouldDispatch)
          = CmdOutcome.ok false →
        (cm.runChain startTr shouldDispatch invs).result = false) := by
  refine ⟨?_, ?_, ?_, ?_⟩
  · simp only [CommandManager.runChain, CommandManager.chainRun]
    rw [List.all_eq_true]
    constructor
    · intro h c hc
      exact of_decide_eq_true (h c hc)
    · intro h c hc
      exact decide_eq_true (h c hc)
  · intro name args hmem hnone
    refine chainRun_result_false_of_bad cm startTr shouldDispatch invs
      name args hmem ?_
    simp [CommandManager.stepCallback, hnone]
  · intro name args f hmem hf hthrow
    refine chainRun_result_false_of_bad cm startTr shouldDispatch invs
      name args hmem ?_
    simp [CommandManager.stepCallback, hf, hthrow]
  · intro name args f hmem hf hfalse
    refine chainRun_result_false_of_bad cm startTr shouldDispatch invs
      name args hmem ?_
    simp [CommandManager.stepCallback, hf, hfalse]

/-- Witness for C4 at a concrete input: the chain `[("no", [])]` over
`cmEx` contains a command returning `false`, so `run()` yields `false`. -/
theorem chain_run_result_characterization_witness :
    (cmEx.runChain none true [("no", [])]).result = false :=
  (chain_run_result_characterization cmEx none true [("no", [])]).2.2.2
    "no" [] falseCmd (by simp) (by rfl) (by rfl)

/-- C5: commands invoked through the `can` evaluator receive an undefined
`dispatch` prop, and every chain created from the `can` evaluator skips
the view dispatch in `run()` (it has a start transaction and dispatching
disabled), so the host view's dispatch is never called from `can`. -/
theorem can_never_dispatches (cm : CommandManager)
    (startTr : Option Transaction) :
    (cm.canProps startTr).dispatch = none
    ∧ ∀ invs, (cm.canChainRun startTr invs).dispatched = [] := by
  refine ⟨rfl, ?_⟩
  intro invs
  simp [CommandManager.canChainRun, CommandManager.runChain,
    CommandManager.chainRun]

/-- C10: in a chain created with dispatching disabled, the props handed to
commands at every nesting depth (through repeated `props.chain()`) carry an
undefined `dispatch` and a disabled `shouldDispatch` for the next level,
and a `can` evaluator created from those props also hands its commands an
undefined `dispatch`. -/
theorem nested_dispatch_suppression (cm : CommandManager) (tr : Transaction)
    (n : Nat) :
    (cm.nestedChainProps tr false n).dispatch = none
    ∧ (cm.nestedChainProps tr false n).chainShouldDispatch = false
    ∧ (cm.canProps (some (cm.nestedChainProps tr false n).tr)).dispatch
        = none := by
  induction n with
  | zero =>
      exact ⟨rfl, rfl, rfl⟩
  | succ n ih =>
      refine ⟨?_, ?_, rfl⟩
      · show (cm.buildProps (cm.nestedChainProps tr false n).tr
          (cm.nestedChainProps tr false n).chainShouldDispatch).dispatch = none
        rw [ih.2.1]
        rfl
      · show (cm.buildProps (cm.nestedChainProps tr false n).tr
          (cm.nestedChainProps tr false n).chainShouldDispatch).chainShouldDispatch
            = false
        rw [ih.2.1]
        rfl

/-- C1: a registered command whose execution throws yields `false` when
invoked through the `can` evaluator (the embedding of the call site is a
total function, so no exception propagates), and `run()` on a chain built
from the `can` evaluator containing such a throwing invocation returns
`false`, regardless of the invocations before and after it. -/
theorem can_throwing_command_yields_false (cm : CommandManager)
    (startTr : Option Transaction) (name : String) (args : Args) (f : Cmd)
    (hf : cm.lookupCommand name = some f)
    (hthrow : f args (cm.canProps startTr) = CmdOutcome.throws) :
    cm.canCommand startTr name args = false
    ∧ ∀ invs1 invs2,
        (cm.canChainRun startTr (invs1 ++ (name, args) :: invs2)).result
          = false := by
  constructor
  · simp only [CommandManager.canCommand, CommandManager.canGet]
    by_cases hn : name = "chain"
    · rw [if_pos hn]
    · rw [if_neg hn, hf]
      simp [hthrow]
  · intro invs1 invs2
    simp only [CommandManager.canChainRun]
    refine chainRun_result_false_of_bad cm
      (some (startTr.getD cm.state.tr)) false
      (invs1 ++ (name, args) :: invs2) name args (by simp) ?_
    rw [canProps_eq_buildProps] at hthrow
    simp [CommandManager.stepCallback, hf, hthrow]

/-- Witness for C1 at a concrete input: `cmEx.can().boom()` is `false` and
`cmEx.can().chain().boom().yes().run()` is `false`. -/
theorem can_throwing_command_yields_false_witness :
    cmEx.canCommand none "boom" [] = false
    ∧ (cmEx.canChainRun none ([] ++ ("boom", ([] : Args)) :: [("yes", [])])).result
        = false := by
  have h := can_throwing_command_yields_false cmEx none "boom" [] throwCmd
    (by rfl) (by rfl)
  exact ⟨h.1, h.2 [] [("yes", [])]⟩

/-- C2 counterexample: at the single-shot `commands` getter there is no
`try`/`catch`, so invoking the registered throwing command `"boom"` on the
concrete manager `cmEx` lets the exception propagate
(`SingleOutcome.threw`) instead of yielding a boolean-false result; the
claim that every call site catches and converts to `false` is therefore
false at this input. -/
theorem single_command_throw_propagates_cex :
    cmEx.singleCommand "boom" [] = some SingleOutcome.threw := rfl

/-- C2 amended: a command whose execution throws is caught and converted
to a boolean-false outcome at the chain builder (`'commandError'` is
recorded, which makes `run()` return `false`) and at the `can` evaluator
(the call returns `false`); at the single-shot `commands` getter the
exception propagates uncaught and the transaction is not dispatched. -/
theorem throw_handling_per_call_site (cm : CommandManager) (name : String)
    (args : Args) (f : Cmd) (hf : cm.lookupCommand name = some f) :
    (f args (cm.buildProps cm.state.tr) = CmdOutcome.throws →
        cm.singleCommand name args = some SingleOutcome.threw)
    ∧ (∀ tr d cbs, f args (cm.buildProps tr d) = CmdOutcome.throws →
        cm.chainedCommandStep tr d cbs name args
          = cbs ++ [Callback.commandError])
    ∧ (∀ startTr, f args (cm.canProps startTr) = CmdOutcome.throws →
        cm.canCommand startTr name args = false) := by
  refine ⟨?_, ?_, ?_⟩
  · intro hthrow
    simp [CommandManager.singleCommand, hf, hthrow]
  · intro tr d cbs hthrow
    simp [CommandManager.chainedCommandStep, CommandManager.stepCallback,
      hf, hthrow]
  · intro startTr hthrow
    simp only [CommandManager.canCommand, CommandManager.canGet]
    by_cases hn : name = "chain"
    · rw [if_pos hn]
    · rw [if_neg hn, hf]
      simp [hthrow]

/-- Witness for the amended C2 at a concrete input: the throwing command
`"boom"` of `cmEx` propagates from the single-shot getter, records
`'commandError'` in a chain, and yields `false` through `can`. -/
theorem throw_handling_per_call_site_witness :
    cmEx.singleCommand "boom" [] = some SingleOutcome.threw
    ∧ cmEx.chainedCommandStep trEx true [] "boom" []
        = [] ++ [Callback.commandError]
    ∧ cmEx.canCommand none "boom" [] = false := by
  have h := throw_handling_per_call_site cmEx "boom" [] throwCmd (by rfl)
  exact ⟨h.1 (by rfl), h.2.1 trEx true [] (by rfl), h.2.2 none (by rfl)⟩

/-- C6: when the manager was constructed with a substitute state, the
`state` getter returns that substitute state, and neither a single-shot
invocation nor `run()` on any chain forwards the transaction to the
view's dispatch. -/
theorem custom_state_suppresses_dispatch (cm : CommandManager)
    (st : EditorState) (h : cm.customState = some st) :
    cm.state = st
    ∧ (∀ name args r, cm.singleCommand name args = some r →
        r.dispatched = [])
    ∧ (∀ startTr shouldDispatch invs,
        (cm.runChain startTr shouldDispatch invs).dispatched = []) := by
  refine ⟨?_, ?_, ?_⟩
  · simp [CommandManager.state, h]
  · intro name args r hr
    rw [CommandManager.singleCommand, Option.map_eq_some'] at hr
    obtain ⟨f, hf, hval⟩ := hr
    subst hval
    cases hout : f args (cm.buildProps cm.state.tr) with
    | throws => simp [hout, SingleOutcome.dispatched]
    | ok b =>
        simp [hout, SingleOutcome.dispatched, CommandManager.hasCustomState, h]
  · intro startTr shouldDispatch invs
    simp [CommandManager.runChain, CommandManager.chainRun,
      CommandManager.hasCustomState, h]

/-- Witness for C6 at a concrete input: a manager over `editorEx` built
with the substitute state `stEx`. -/
theorem custom_state_suppresses_dispatch_witness :
    (CommandManager.make editorEx (some stEx)).state = stEx
    ∧ ((CommandManager.make editorEx (some stEx)).runChain none true
        [("yes", [])]).dispatched = [] := by
  have h := custom_state_suppresses_dispatch
    (CommandManager.make editorEx (some stEx)) stEx rfl
  exact ⟨h.1, h.2.2 none true [("yes", [])]⟩

/-- C7: every element of the chain's per-call outcome list is the callback
of one of the invocations, and that callback is `'commandNotFound'`
exactly when the name does not resolve to a function of the raw-command
table, `'commandError'` exactly when the resolved command's execution
throws, and the boolean `b` exactly when it returns `b`; by the type of
`Callback`, no other outcome value can appear. -/
theorem callbacks_invariant (cm : CommandManager) (tr : Transaction)
    (shouldDispatch : Bool) (invs : List (String × Args)) :
    (∀ c ∈ cm.chainCallbacks tr shouldDispatch invs,
        ∃ p ∈ invs, c = cm.stepCallback tr shouldDispatch p.1 p.2)
    ∧ ∀ name args,
        (cm.stepCallback tr shouldDispatch name args = Callback.commandNotFound
          ↔ cm.lookupCommand name = none)
        ∧ (cm.stepCallback tr shouldDispatch name args = Callback.commandError
          ↔ ∃ f, cm.lookupCommand name = some f
              ∧ f args (cm.buildProps tr shouldDispatch) = CmdOutcome.throws)
        ∧ ∀ b,
          cm.stepCallback tr shouldDispatch name args = Callback.result b
            ↔ ∃ f, cm.lookupCommand name = some f
                ∧ f args (cm.buildProps tr shouldDispatch) = CmdOutcome.ok b := by
  constructor
  · intro c hc
    rw [chainCallbacks_eq_map] at hc
    obtain ⟨p, hp, hval⟩ := List.mem_map.mp hc
    exact ⟨p, hp, hval.symm⟩
  · intro name args
    refine ⟨?_, ?_, ?_⟩
    · rw [CommandManager.stepCallback]
      cases hlk : cm.lookupCommand name with
      | none => simp
      | some f =>
          simp only []
          cases f args (cm.buildProps tr shouldDispatch) <;> simp
    · rw [CommandManager.stepCallback]
      cases hlk : cm.lookupCommand name with
      | none => simp
      | some f =>
          simp only []
          cases hout : f args (cm.buildProps tr shouldDispatch) <;> simp [hout]
    · intro b
      rw [CommandManager.stepCallback]
      cases hlk : cm.lookupCommand name with
      | none => simp
      | some f =>
          simp only []
          cases hout : f args (cm.buildProps tr shouldDispatch) with
          | ok b0 => simp [hout, eq_comm]
          | throws => simp [hout]

/-- Witness for C7 at a concrete input: the `'commandError'` recorded by
the chain `[("boom", [])]` over `cmEx` is the callback of one of its
invocations. -/
theorem callbacks_invariant_witness :
    ∃ p ∈ [("boom", ([] : Args))],
      Callback.commandError = cmEx.stepCallback trEx true p.1 p.2 :=
  (callbacks_invariant cmEx trEx true [("boom", [])]).1
    Callback.commandError (by simp [cmEx, CommandManager.make, editorEx,
      CommandManager.chainCallbacks, CommandManager.chainedCommandStep,
      CommandManager.stepCallback, CommandManager.lookupCommand, throwCmd])

/-- C8: `run()` on a freshly created chain with no invocations returns
`true`, and when the chain was created through the `chain()` getter (no
start transaction, dispatching enabled) on a manager with no custom state
and a transaction with no `preventDispatch` meta, the still-empty
accumulated transaction is dispatched to the view. -/
theorem empty_chain_run (cm : CommandManager)
    (hmeta : cm.state.tr.preventDispatch = false)
    (hcustom : cm.customState = none) :
    (cm.runChain none true []).result = true
    ∧ (cm.runChain none true []).dispatched = [cm.state.tr] := by
  constructor
  · rfl
  · simp [CommandManager.runChain, CommandManager.chainRun,
      CommandManager.chainCallbacks, CommandManager.hasCustomState,
      hmeta, hcustom]

/-- Witness for C8 at a concrete input: the empty chain over `cmEx`. -/
theorem empty_chain_run_witness :
    (cmEx.runChain none true []).result = true
    ∧ (cmEx.runChain none true []).dispatched = [cmEx.state.tr] :=
  empty_chain_run cmEx (by rfl) (by rfl)

/-- C9: a property name other than `'chain'` that does not resolve to a
function of the raw-command table makes the `can` evaluator hand back
`alwaysReturnFalse`, so probing it returns `false` for all arguments and
never throws (the embedding of the call site is a total function). -/
theorem can_unknown_command_false (cm : CommandManager)
    (startTr : Option Transaction) (name : String) (args : Args)
    (hname : name ≠ "chain") (hmiss : cm.lookupCommand name = none) :
    cm.canGet startTr name = CanGet.callable alwaysReturnFalse
    ∧ cm.canCommand startTr name args = false := by
  have hget : cm.canGet startTr name = CanGet.callable alwaysReturnFalse := by
    rw [CommandManager.canGet]
    rw [if_neg hname, hmiss]
  exact ⟨hget, by rw [CommandManager.canCommand, hget]; rfl⟩

/-- Witness for C9 at a concrete input: the name `"nope"` is not a
registered command of `cmEx`. -/
theorem can_unknown_command_false_witness :
    cmEx.canGet none "nope" = CanGet.callable alwaysReturnFalse
    ∧ cmEx.canCommand none "nope" [] = false :=
  can_unknown_command_false cmEx none "nope" [] (by decide) (by rfl)
